import Mathlib

/-
Verification of the CustomEMICalculator core (emi_calculator.py).

Shallow embedding conventions:
* Python `Decimal` values (28 significant digits of working precision) are
  modelled as exact rationals (ℚ); the spec itself (§9) frames the ambient
  Decimal context as "exact, arbitrary-precision decimal arithmetic".
* `datetime.date` is a record of year/month/day; day differences
  (`(end - start).days`) are computed through a proleptic-Gregorian
  rata-die function mirroring CPython's `date.toordinal`.
* `dateutil.relativedelta(months=n)` adds n calendar months, clamping the
  day-of-month to the target month's length; `relativedelta(weeks=k)` adds
  7·k calendar days.
* Fallible constructor code (dict lookups raising KeyError, Decimal
  division by zero) is modelled with `Except`.
-/

/-! ### Calendar model -/

/-- A calendar date, mirroring `datetime.date` (year/month/day). -/
structure Date where
  year : ℕ
  month : ℕ
  day : ℕ
deriving DecidableEq, Repr

/-- `calendar.isleap`: Gregorian leap-year test. -/
def isleap (y : ℕ) : Bool :=
  y % 4 == 0 && (y % 100 != 0 || y % 400 == 0)

/-- `calendar.monthrange(y, m)[1]`: the number of days in month `m` of year
`y` (0 for an out-of-range month, which CPython rejects; all uses here are
guarded by date validity). -/
def monthrange (y m : ℕ) : ℕ :=
  match m with
  | 1 => 31
  | 2 => if isleap y then 29 else 28
  | 3 => 31
  | 4 => 30
  | 5 => 31
  | 6 => 30
  | 7 => 31
  | 8 => 31
  | 9 => 30
  | 10 => 31
  | 11 => 30
  | 12 => 31
  | _ => 0

/-- Number of leap years in `[1, y)`, as in CPython's date ordinal code. -/
def leaps_before (y : ℕ) : ℕ :=
  (y - 1) / 4 - (y - 1) / 100 + (y - 1) / 400

/-- Days before January 1 of year `y`, counting from day 1 = 0001-01-01. -/
def days_before_year (y : ℕ) : ℕ :=
  365 * (y - 1) + leaps_before y

/-- Days in year `y` before the first of month `m` (CPython's
`_days_before_month` table plus the leap correction). -/
def days_before_month (y m : ℕ) : ℕ :=
  (match m with
   | 1 => 0
   | 2 => 31
   | 3 => 59
   | 4 => 90
   | 5 => 120
   | 6 => 151
   | 7 => 181
   | 8 => 212
   | 9 => 243
   | 10 => 273
   | 11 => 304
   | 12 => 334
   | _ => 0) + (if m ≤ 2 then 0 else if isleap y then 1 else 0)

/-- Proleptic-Gregorian ordinal of a date (CPython's `date.toordinal`):
0001-01-01 has ordinal 1. -/
def rataDie (d : Date) : ℕ :=
  days_before_year d.year + days_before_month d.year d.month + d.day

/-- `(e - s).days` for Python dates: difference of ordinals. -/
def days_between (s e : Date) : ℤ :=
  (rataDie e : ℤ) - (rataDie s : ℤ)

/-- The calendar day after `d` (for valid `d`). -/
def nextDay (d : Date) : Date :=
  if d.day < monthrange d.year d.month then ⟨d.year, d.month, d.day + 1⟩
  else if d.month < 12 then ⟨d.year, d.month + 1, 1⟩
  else ⟨d.year + 1, 1, 1⟩

/-- `d + timedelta(days=n)`: `n` successive calendar-day increments. -/
def addDays (d : Date) : ℕ → Date
  | 0 => d
  | n + 1 => nextDay (addDays d n)

/-- `d + relativedelta(months=n)`: add `n` calendar months, clamping the
day-of-month to the target month's last day. -/
def addMonths (d : Date) (n : ℕ) : Date :=
  let t := d.month - 1 + n
  let y := d.year + t / 12
  let m := t % 12 + 1
  ⟨y, m, min d.day (monthrange y m)⟩

/-- A structurally valid `datetime.date` (year ≥ 1, month in 1..12, day in
range for the month). -/
def ValidDate (d : Date) : Prop :=
  1 ≤ d.year ∧ 1 ≤ d.month ∧ d.month ≤ 12 ∧ 1 ≤ d.day ∧ d.day ≤ monthrange d.year d.month

instance (d : Date) : Decidable (ValidDate d) := by
  unfold ValidDate; infer_instance

/-- Python's `date` ordering (lexicographic on year, month, day). -/
def DateLt (a b : Date) : Prop :=
  a.year < b.year ∨ (a.year = b.year ∧
    (a.month < b.month ∨ (a.month = b.month ∧ a.day < b.day)))

instance (a b : Date) : Decidable (DateLt a b) := by
  unfold DateLt; infer_instance

/-- `d` is the last calendar day of its month. -/
def is_month_end (d : Date) : Prop :=
  d.day = monthrange d.year d.month

instance (d : Date) : Decidable (is_month_end d) := by
  unfold is_month_end; infer_instance

/-! ### Decimal rounding utility (`finance_round`) -/

/-- Round a rational to the nearest integer, ties to the even integer
(`decimal.ROUND_HALF_EVEN`). -/
def round_half_even (q : ℚ) : ℤ :=
  let n := ⌊q⌋
  if q - n < 1 / 2 then n
  else if 1 / 2 < q - n then n + 1
  else if Even n then n else n + 1

/-- `finance_round(value, ndigits)`: banker's rounding to `ndigits`
fractional digits, as `Decimal.quantize(10 ** -ndigits, ROUND_HALF_EVEN)`.
The source's default for `ndigits` is 2; every call site here passes 2. -/
def finance_round (value : ℚ) (ndigits : ℕ) : ℚ :=
  (round_half_even (value * 10 ^ ndigits) : ℚ) / 10 ^ ndigits

/-! ### Day count conventions (`DayCountConvention`) -/

/-- `DayCountConvention.year_fraction_30_360`: 30/360 year fraction and raw
day count. -/
def year_fraction_30_360 (start_date end_date : Date) : ℚ × ℤ :=
  let d1 : ℤ := min start_date.day 30
  let d2 : ℤ := min end_date.day 30
  let days : ℤ := ((end_date.year : ℤ) - start_date.year) * 360 +
    ((end_date.month : ℤ) - start_date.month) * 30 + (d2 - d1)
  ((days : ℚ) / 360, days)

/-- `DayCountConvention.year_fraction_actual_360`. -/
def year_fraction_actual_360 (start_date end_date : Date) : ℚ × ℤ :=
  let days := days_between start_date end_date
  ((days : ℚ) / 360, days)

/-- `DayCountConvention.year_fraction_actual_365`. -/
def year_fraction_actual_365 (start_date end_date : Date) : ℚ × ℤ :=
  let days := days_between start_date end_date
  ((days : ℚ) / 365, days)

/-- `DayCountConvention.year_fraction_actual_actual`. -/
def year_fraction_actual_actual (start_date end_date : Date) : ℚ × ℤ :=
  let days := days_between start_date end_date
  let year_days : ℤ := if isleap start_date.year then 366 else 365
  ((days : ℚ) / (year_days : ℚ), days)

/-! ### The calculator (`EMI_Calculator`) -/

/-- The attributes an `EMI_Calculator` instance carries after `__init__`
(`self.P`, `self.R`, `self.start_date`, `self.years`, `self.convention`,
`self.frequency`, `self.periods_per_year`, `self.terms`, `self.dcc`).
`self.emi` is the cached value of `calculate_emi`, reproduced here by
calling `calculate_emi` where the source reads `self.emi`. -/
structure EMI_Calculator where
  P : ℚ
  R : ℚ
  start_date : Date
  years : ℤ
  convention : String
  frequency : String
  periods_per_year : ℕ
  terms : ℤ
  dcc : Date → Date → ℚ × ℤ

/-- The `periods_per_year` dict lookup (`KeyError` on an unknown code). -/
def periods_per_year_table (frequency : String) : Option ℕ :=
  if frequency = "W" then some 52
  else if frequency = "BW" then some 26
  else if frequency = "M" then some 12
  else if frequency = "Q" then some 4
  else if frequency = "S" then some 2
  else if frequency = "A" then some 1
  else none

/-- The day-count-convention dict lookup (`KeyError` on an unknown code). -/
def dcc_table (convention : String) : Option (Date → Date → ℚ × ℤ) :=
  if convention = "30/360" then some year_fraction_30_360
  else if convention = "Actual/360" then some year_fraction_actual_360
  else if convention = "Actual/365" then some year_fraction_actual_365
  else if convention = "Actual/Actual" then some year_fraction_actual_actual
  else none

/-- `EMI_Calculator._adjust_end_of_month(date, months_to_add)`. -/
def adjust_end_of_month (date : Date) (months_to_add : ℕ) : Date :=
  let new_date := addMonths date months_to_add
  let last_day := monthrange new_date.year new_date.month
  if date.day = monthrange date.year date.month then
    ⟨new_date.year, new_date.month, last_day⟩
  else new_date

/-- The body of the loop in `_generate_payment_dates`: one roll of the
running date `d` according to the frequency (an unknown frequency leaves
`d` unchanged, exactly as the if/elif chain does). -/
def roll_date (c : EMI_Calculator) (d : Date) : Date :=
  if c.frequency = "W" then addDays d 7
  else if c.frequency = "BW" then addDays d 14
  else if c.frequency = "M" then adjust_end_of_month d 1
  else if c.frequency = "Q" then adjust_end_of_month d 3
  else if c.frequency = "S" then adjust_end_of_month d 6
  else if c.frequency = "A" then adjust_end_of_month d 12
  else d

/-- The dates appended by the `for _ in range(self.terms)` loop of
`_generate_payment_dates`, starting from running date `d`. -/
def gen_dates_aux (c : EMI_Calculator) (d : Date) : ℕ → List Date
  | 0 => []
  | n + 1 =>
    let d' := roll_date c d
    d' :: gen_dates_aux c d' n

/-- `EMI_Calculator._generate_payment_dates` (a negative `terms` makes
`range(self.terms)` empty, hence `Int.toNat`). -/
def generate_payment_dates (c : EMI_Calculator) : List Date :=
  c.start_date :: gen_dates_aux c c.start_date c.terms.toNat

/-- The accumulator loop of `calculate_emi`: walks the remaining payment
dates carrying `prev_date`, the sum `F` and the discount `product`;
returns the final `(F, product)`. -/
def emi_loop (c : EMI_Calculator) : Date → ℚ → ℚ → List Date → ℚ × ℚ
  | _, F, product, [] => (F, product)
  | prev_date, F, product, pay_date :: rest =>
    let yf := (c.dcc prev_date pay_date).1
    let factor := 1 + c.R * yf
    let product' := product * factor
    let F' := F + 1 / product'
    emi_loop c pay_date F' product' rest

/-- The value of `F` at the end of the loop in `calculate_emi`. -/
def emi_F (c : EMI_Calculator) : ℚ :=
  (emi_loop c c.start_date 0 1 (generate_payment_dates c).tail).1

/-- `EMI_Calculator.calculate_emi` (in `Decimal`, `P / F` raises when
`F = 0`; the constructor model `mk_EMI_Calculator` performs that check,
and in ℚ the value here is then immaterial). -/
def calculate_emi (c : EMI_Calculator) : ℚ :=
  finance_round (c.P / emi_F c) 2

/-- `EMI_Calculator.__init__`: the two dict lookups (KeyError on unknown
frequency/convention codes), then `self.emi = self.calculate_emi()`,
which raises `decimal.DivisionByZero` when the accumulated `F` is zero.
No validation of principal, rate or term is performed. -/
def mk_EMI_Calculator (principal annual_rate : ℚ) (start_date : Date)
    (years : ℤ) (convention frequency : String) :
    Except String EMI_Calculator :=
  match periods_per_year_table frequency with
  | none => .error "KeyError: frequency"
  | some ppy =>
    match dcc_table convention with
    | none => .error "KeyError: convention"
    | some dcc =>
      let c : EMI_Calculator :=
        ⟨principal, annual_rate / 100, start_date, years, convention,
          frequency, ppy, years * (ppy : ℤ), dcc⟩
      if emi_F c = 0 then .error "decimal.DivisionByZero"
      else .ok c

/-! ### Amortization schedule (`get_schedule`) -/

/-- One row of the amortization schedule, with the fields emitted by
`get_schedule` (the payment date is kept as a `Date`; the source formats
it as "YYYY-MM-DD"). -/
structure ScheduleRow where
  payment_number : ℕ
  payment_date : Date
  opening_balance : ℚ
  principal : ℚ
  interest : ℚ
  emi : ℚ
  closing_balance : ℚ
deriving DecidableEq, Repr

/-- The loop of `get_schedule`: walks the remaining payment dates with the
running `balance`, previous date and 1-based row index `i`; the final row
(`i == self.terms`) re-adds the remaining balance into its principal and
forces the balance to zero. -/
def schedule_loop (c : EMI_Calculator) : ℚ → Date → ℕ → List Date → List ScheduleRow
  | _, _, _, [] => []
  | balance, prev_date, i, pay_date :: rest =>
    let yf := (c.dcc prev_date pay_date).1
    let interest := finance_round (balance * c.R * yf) 2
    let principal := calculate_emi c - interest
    let balance' := balance - principal
    if (i : ℤ) = c.terms then
      let principal' := principal + balance'
      let emi := principal' + interest
      let balance'' : ℚ := 0
      ⟨i, pay_date, finance_round (balance'' + principal') 2,
        finance_round principal' 2, finance_round interest 2,
        finance_round emi 2, finance_round balance'' 2⟩ ::
        schedule_loop c balance'' pay_date (i + 1) rest
    else
      ⟨i, pay_date, finance_round (balance' + principal) 2,
        finance_round principal 2, finance_round interest 2,
        finance_round (calculate_emi c) 2, finance_round balance' 2⟩ ::
        schedule_loop c balance' pay_date (i + 1) rest

/-- `EMI_Calculator.get_schedule`. -/
def get_schedule (c : EMI_Calculator) : List ScheduleRow :=
  schedule_loop c c.P c.start_date 1 (generate_payment_dates c).tail

/-- Sum of the `Principal` column of a schedule (as in `print_schedule`
and the service-layer summary). -/
def schedule_principal_sum (rows : List ScheduleRow) : ℚ :=
  (rows.map ScheduleRow.principal).sum

/-! ### Specification-side definitions -/

/-- The per-period discount factors `1 + R * yearFraction(prev, pay)` over
consecutive date pairs of the payment-date sequence (spec §4.4). -/
def discount_factors (c : EMI_Calculator) : List ℚ :=
  let dates := generate_payment_dates c
  (dates.zip dates.tail).map (fun p => 1 + c.R * (c.dcc p.1 p.2).1)

/-- Closed-form present-value denominator from spec §4.4: the sum over all
periods of the reciprocal of the running product of discount factors. -/
def F_spec (c : EMI_Calculator) : ℚ :=
  ((List.range (discount_factors c).length).map
    (fun k => ((discount_factors c).take (k + 1)).prod⁻¹)).sum

/-- A rational that is a whole number of cents (an exact multiple of
0.01, the quantum of all `finance_round _ 2` outputs). -/
def Cent (q : ℚ) : Prop := ∃ k : ℤ, q = (k : ℚ) / 100

/-! ### Concrete instances used in witnesses and counterexamples -/

/-- A 1-year annual 30/360 loan: principal 10000, rate 9%, start
2024-01-15. All attribute fields are as `__init__` computes them. -/
def one_period_calc : EMI_Calculator :=
  ⟨10000, 9 / 100, ⟨2024, 1, 15⟩, 1, "30/360", "A", 1, 1, year_fraction_30_360⟩

/-- A 2-year annual loan at rate 0 whose principal 100.015 carries an
exact half-cent residue. -/
def half_cent_calc : EMI_Calculator :=
  ⟨100015 / 1000, 0, ⟨2024, 1, 15⟩, 2, "Actual/365", "A", 1, 2,
    year_fraction_actual_365⟩

/-- A 2-year monthly loan starting at the month-end date 2024-01-31. -/
def eom_calc : EMI_Calculator :=
  ⟨10000, 9 / 100, ⟨2024, 1, 31⟩, 2, "Actual/365", "M", 12, 24,
    year_fraction_actual_365⟩

/-- The calculator `__init__` builds for principal −100, rate 9, start
2024-01-15, 1 year, annual, 30/360 — used to show the absence of a
non-positive-principal check. -/
def negative_principal_calc : EMI_Calculator :=
  ⟨-100, 9 / 100, ⟨2024, 1, 15⟩, 1, "30/360", "A", 1, 1, year_fraction_30_360⟩

/-- A 1-year weekly loan starting at the month-end date 2024-01-31. -/
def weekly_calc : EMI_Calculator :=
  ⟨1000, 5 / 100, ⟨2024, 1, 31⟩, 1, "Actual/365", "W", 52, 52,
    year_fraction_actual_365⟩

/-! ### Rounding lemmas -/

theorem round_half_even_intCast (k : ℤ) : round_half_even (k : ℚ) = k := by
  simp [round_half_even]

theorem abs_round_half_even_sub (q : ℚ) : |(round_half_even q : ℚ) - q| ≤ 1 / 2 := by
  have h1 : (⌊q⌋ : ℚ) ≤ q := Int.floor_le q
  have h2 : q < ⌊q⌋ + 1 := Int.lt_floor_add_one q
  simp only [round_half_even]
  split_ifs with ha hb hc <;> rw [abs_le] <;> push_cast <;> constructor <;> linarith

theorem Cent.zero : Cent 0 := ⟨0, by norm_num⟩

theorem Cent.add {a b : ℚ} (ha : Cent a) (hb : Cent b) : Cent (a + b) := by
  obtain ⟨j, hj⟩ := ha; obtain ⟨k, hk⟩ := hb
  exact ⟨j + k, by rw [hj, hk]; push_cast; ring⟩

theorem Cent.sub {a b : ℚ} (ha : Cent a) (hb : Cent b) : Cent (a - b) := by
  obtain ⟨j, hj⟩ := ha; obtain ⟨k, hk⟩ := hb
  exact ⟨j - k, by rw [hj, hk]; push_cast; ring⟩

theorem finance_round_cent (q : ℚ) : Cent (finance_round q 2) :=
  ⟨round_half_even (q * 10 ^ 2), by rw [finance_round]; norm_num⟩

theorem finance_round_of_cent {q : ℚ} (h : Cent q) : finance_round q 2 = q := by
  obtain ⟨k, hk⟩ := h
  have hq : q * 10 ^ 2 = (k : ℚ) := by rw [hk]; ring_nf
  rw [finance_round, hq, round_half_even_intCast, hk]
  norm_num

theorem abs_finance_round_sub (q : ℚ) : |finance_round q 2 - q| ≤ 1 / 200 := by
  have h := abs_round_half_even_sub (q * 10 ^ 2)
  rw [finance_round]
  have hsplit : (round_half_even (q * 10 ^ 2) : ℚ) / 10 ^ 2 - q
      = ((round_half_even (q * 10 ^ 2) : ℚ) - q * 10 ^ 2) / 10 ^ 2 := by ring
  rw [hsplit, abs_div, abs_of_pos (show (0:ℚ) < 10 ^ 2 by norm_num),
    div_le_iff₀ (show (0:ℚ) < 10 ^ 2 by norm_num)]
  refine le_trans h ?_
  norm_num

theorem round_half_even_eq_low {q : ℚ} {n : ℤ} (h0 : (n : ℚ) ≤ q)
    (h1 : q < n + 1) (hlt : q - n < 1 / 2) : round_half_even q = n := by
  have hf : ⌊q⌋ = n := Int.floor_eq_iff.mpr ⟨h0, h1⟩
  simp only [round_half_even, hf]
  rw [if_pos hlt]

theorem round_half_even_eq_high {q : ℚ} {n : ℤ} (h0 : (n : ℚ) ≤ q)
    (h1 : q < n + 1) (hgt : 1 / 2 < q - n) : round_half_even q = n + 1 := by
  have hf : ⌊q⌋ = n := Int.floor_eq_iff.mpr ⟨h0, h1⟩
  simp only [round_half_even, hf]
  rw [if_neg (by linarith), if_pos hgt]

theorem round_half_even_eq_tie_even {q : ℚ} {n : ℤ} (h0 : (n : ℚ) ≤ q)
    (heq : q - n = 1 / 2) (he : Even n) : round_half_even q = n := by
  have hf : ⌊q⌋ = n := Int.floor_eq_iff.mpr ⟨h0, by linarith⟩
  simp only [round_half_even, hf]
  rw [if_neg (by linarith), if_neg (by linarith), if_pos he]

theorem round_half_even_eq_tie_odd {q : ℚ} {n : ℤ} (h0 : (n : ℚ) ≤ q)
    (heq : q - n = 1 / 2) (he : ¬ Even n) : round_half_even q = n + 1 := by
  have hf : ⌊q⌋ = n := Int.floor_eq_iff.mpr ⟨h0, by linarith⟩
  simp only [round_half_even, hf]
  rw [if_neg (by linarith), if_neg (by linarith), if_neg he]

/-! ### Calendar lemmas -/

theorem isleap_iff (y : ℕ) :
    isleap y = true ↔ (y % 4 = 0 ∧ (y % 100 ≠ 0 ∨ y % 400 = 0)) := by
  simp [isleap]

theorem monthrange_pos {y m : ℕ} (h1 : 1 ≤ m) (h2 : m ≤ 12) :
    1 ≤ monthrange y m := by
  interval_cases m <;> simp [monthrange] <;> split_ifs <;> omega

theorem monthrange_le_31 (y m : ℕ) : monthrange y m ≤ 31 := by
  unfold monthrange
  split <;> first | omega | (split_ifs <;> omega)

theorem dbm_step {y m : ℕ} (h1 : 1 ≤ m) (h2 : m ≤ 11) :
    days_before_month y (m + 1) = days_before_month y m + monthrange y m := by
  interval_cases m <;> simp [days_before_month, monthrange] <;> split_ifs <;> omega

theorem dbm_add_monthrange_le {y m : ℕ} (h1 : 1 ≤ m) (h2 : m ≤ 12) :
    days_before_month y m + monthrange y m ≤ 365 + (if isleap y then 1 else 0) := by
  interval_cases m <;> simp [days_before_month, monthrange] <;> split_ifs <;> omega

theorem dbm_succ_le {y m m' : ℕ} (h1 : 1 ≤ m) (hlt : m < m') (h2 : m' ≤ 12) :
    days_before_month y m + monthrange y m ≤ days_before_month y m' := by
  induction m' with
  | zero => omega
  | succ k ih =>
    rcases Nat.lt_or_ge m k with hk | hk
    · have hs := dbm_step (y := y) (m := k) (by omega) (by omega)
      have h3 := ih hk (by omega)
      omega
    · have hm : m = k := by omega
      subst hm
      rw [dbm_step h1 (by omega)]

set_option maxHeartbeats 1000000 in
theorem dby_succ {y : ℕ} (hy : 1 ≤ y) :
    days_before_year (y + 1) =
      days_before_year y + 365 + (if isleap y then 1 else 0) := by
  have hl := isleap_iff y
  unfold days_before_year leaps_before
  split_ifs with h
  · rw [hl] at h
    omega
  · rw [hl] at h
    push_neg at h
    omega

theorem dby_mono {y y' : ℕ} (hy : 1 ≤ y) (hle : y ≤ y') :
    days_before_year y ≤ days_before_year y' := by
  induction y' with
  | zero => omega
  | succ k ih =>
    rcases Nat.lt_or_ge y (k + 1) with hk | hk
    · have h3 := ih (by omega)
      have hs := dby_succ (y := k) (by omega)
      omega
    · have hm : y = k + 1 := by omega
      subst hm
      omega

theorem dby_year_step {y y' : ℕ} (hy : 1 ≤ y) (hlt : y < y') :
    days_before_year y + 365 + (if isleap y then 1 else 0) ≤ days_before_year y' := by
  have hs := dby_succ hy
  have hm := @dby_mono (y + 1) y' (by omega) (by omega)
  omega

theorem rataDie_lt_of_dateLt {a b : Date} (ha : ValidDate a) (hb : ValidDate b)
    (hl : DateLt a b) : rataDie a < rataDie b := by
  obtain ⟨hay, ham1, ham2, had1, had2⟩ := ha
  obtain ⟨hby, hbm1, hbm2, hbd1, hbd2⟩ := hb
  unfold rataDie
  rcases hl with hy | ⟨hy, hm | ⟨hm, hd⟩⟩
  · have h1 : days_before_month a.year a.month + monthrange a.year a.month ≤
        365 + (if isleap a.year then 1 else 0) := dbm_add_monthrange_le ham1 ham2
    have h2 : days_before_year a.year + 365 + (if isleap a.year then 1 else 0) ≤
        days_before_year b.year := dby_year_step hay hy
    omega
  · rw [hy]
    have h1 : days_before_month b.year a.month + monthrange b.year a.month ≤
        days_before_month b.year b.month := dbm_succ_le ham1 hm hbm2
    have h3 : monthrange a.year a.month = monthrange b.year a.month := by rw [hy]
    omega
  · rw [hy, hm]
    omega

theorem nextDay_valid {d : Date} (h : ValidDate d) : ValidDate (nextDay d) := by
  obtain ⟨hy, hm1, hm2, hd1, hd2⟩ := h
  unfold nextDay ValidDate
  split_ifs with h1 h2 <;> dsimp only
  · exact ⟨hy, hm1, hm2, by omega, by omega⟩
  · exact ⟨hy, by omega, by omega, by omega,
      monthrange_pos (by omega) (by omega)⟩
  · exact ⟨by omega, by omega, by omega, by omega, by simp [monthrange]⟩

theorem rataDie_nextDay {d : Date} (h : ValidDate d) :
    rataDie (nextDay d) = rataDie d + 1 := by
  obtain ⟨hy, hm1, hm2, hd1, hd2⟩ := h
  unfold nextDay
  split_ifs with h1 h2
  · simp [rataDie]
    omega
  · have hd : d.day = monthrange d.year d.month := by omega
    have hs := dbm_step (y := d.year) (m := d.month) hm1 (by omega)
    simp only [rataDie]
    omega
  · have hm : d.month = 12 := by omega
    rw [hm] at h1 hd2
    simp [monthrange] at h1 hd2
    have hd : d.day = 31 := by omega
    have hs := dby_succ hy
    have h334 : days_before_month d.year 12 = 334 + (if isleap d.year then 1 else 0) := by
      simp [days_before_month]
    have h0 : days_before_month (d.year + 1) 1 = 0 := by simp [days_before_month]
    simp only [rataDie, hm, hd]
    omega

theorem addDays_valid {d : Date} (h : ValidDate d) (n : ℕ) :
    ValidDate (addDays d n) := by
  induction n with
  | zero => exact h
  | succ k ih => exact nextDay_valid ih

theorem rataDie_addDays {d : Date} (h : ValidDate d) (n : ℕ) :
    rataDie (addDays d n) = rataDie d + n := by
  induction n with
  | zero => rfl
  | succ k ih =>
    have hv := addDays_valid h k
    show rataDie (nextDay (addDays d k)) = rataDie d + (k + 1)
    rw [rataDie_nextDay hv, ih]
    omega

theorem adjust_eom_month_end {d : Date} (n : ℕ) (h : is_month_end d) :
    is_month_end (adjust_end_of_month d n) := by
  have h' : d.day = monthrange d.year d.month := h
  simp only [adjust_end_of_month]
  rw [if_pos h']
  simp [is_month_end]

/-! ### Payment-date generator lemmas -/

theorem gen_dates_aux_length (c : EMI_Calculator) :
    ∀ (n : ℕ) (d : Date), (gen_dates_aux c d n).length = n
  | 0, _ => rfl
  | n + 1, d => by
    simp only [gen_dates_aux, List.length_cons]
    rw [gen_dates_aux_length c n]

theorem generate_payment_dates_length (c : EMI_Calculator) :
    (generate_payment_dates c).length = c.terms.toNat + 1 := by
  simp [generate_payment_dates, gen_dates_aux_length]

theorem chain_gen_dates_aux (c : EMI_Calculator) (V : Date → Prop)
    (R : Date → Date → Prop) (hV : ∀ x, V x → V (roll_date c x))
    (hR : ∀ x, V x → R x (roll_date c x)) :
    ∀ (n : ℕ) (d : Date), V d → List.Chain' R (d :: gen_dates_aux c d n)
  | 0, d, _ => by simp [gen_dates_aux]
  | n + 1, d, hd => by
    simp only [gen_dates_aux]
    exact List.chain'_cons.mpr
      ⟨hR d hd, chain_gen_dates_aux c V R hV hR n (roll_date c d) (hV d hd)⟩

theorem gen_dates_aux_all_inv (c : EMI_Calculator) (V : Date → Prop)
    (hV : ∀ x, V x → V (roll_date c x)) :
    ∀ (n : ℕ) (d : Date), V d → ∀ x ∈ gen_dates_aux c d n, V x
  | 0, _, _ => by simp [gen_dates_aux]
  | n + 1, d, hd => by
    simp only [gen_dates_aux, List.mem_cons]
    rintro x (rfl | hx)
    · exact hV d hd
    · exact gen_dates_aux_all_inv c V hV n (roll_date c d) (hV d hd) x hx

theorem roll_date_month_end {c : EMI_Calculator}
    (hf : c.frequency = "M" ∨ c.frequency = "Q" ∨ c.frequency = "S" ∨
      c.frequency = "A") {d : Date} (h : is_month_end d) :
    is_month_end (roll_date c d) := by
  rcases hf with h1 | h1 | h1 | h1 <;> simp [roll_date, h1] <;>
    exact adjust_eom_month_end _ h

theorem roll_date_weekly {c : EMI_Calculator} (hf : c.frequency = "W")
    (d : Date) : roll_date c d = addDays d 7 := by
  simp [roll_date, hf]

/-! ### Claim theorems: date rolling -/

/-- C4: for every month-based frequency (M, Q, S, A), consecutive dates of
the generated payment sequence satisfy: if the preceding date is the last
calendar day of its month, so is the next rolled date; in particular, from
a month-end start date every date of the sequence is a month-end (covering
February in leap and non-leap years). -/
theorem c4_month_end_preservation (c : EMI_Calculator)
    (hf : c.frequency = "M" ∨ c.frequency = "Q" ∨ c.frequency = "S" ∨
      c.frequency = "A") :
    List.Chain' (fun a b => is_month_end a → is_month_end b)
      (generate_payment_dates c) ∧
    (is_month_end c.start_date →
      ∀ d ∈ generate_payment_dates c, is_month_end d) := by
  constructor
  · exact chain_gen_dates_aux c (fun _ => True) _
      (fun _ _ => trivial)
      (fun x _ hx => roll_date_month_end hf hx)
      c.terms.toNat c.start_date trivial
  · intro h d hd
    rcases List.mem_cons.mp hd with rfl | hx
    · exact h
    · exact gen_dates_aux_all_inv c is_month_end
        (fun x hx => roll_date_month_end hf hx)
        c.terms.toNat c.start_date h d hx

/-- Witness for C4 at a concrete monthly calculator starting 2024-01-31. -/
theorem c4_witness :
    List.Chain' (fun a b => is_month_end a → is_month_end b)
      (generate_payment_dates eom_calc) ∧
    (is_month_end eom_calc.start_date →
      ∀ d ∈ generate_payment_dates eom_calc, is_month_end d) :=
  c4_month_end_preservation eom_calc (Or.inl rfl)

/-- C8: for frequency W the payment-date sequence is the start date
followed by exactly `terms` dates, each exactly 7 calendar days (in date
ordinals) after its predecessor; this holds for every valid start date,
including month-end start dates — no end-of-month adjustment is applied. -/
theorem c8_weekly_dates (c : EMI_Calculator) (hf : c.frequency = "W")
    (hv : ValidDate c.start_date) :
    (generate_payment_dates c).length = c.terms.toNat + 1 ∧
    (generate_payment_dates c).head? = some c.start_date ∧
    List.Chain' (fun a b => rataDie b = rataDie a + 7)
      (generate_payment_dates c) := by
  refine ⟨generate_payment_dates_length c, rfl, ?_⟩
  refine chain_gen_dates_aux c ValidDate _ ?_ ?_ c.terms.toNat c.start_date hv
  · intro x hx
    rw [roll_date_weekly hf]
    exact addDays_valid hx 7
  · intro x hx
    rw [roll_date_weekly hf]
    exact rataDie_addDays hx 7

/-- Witness for C8 at a concrete weekly calculator starting at the
month-end date 2024-01-31. -/
theorem c8_witness :
    (generate_payment_dates weekly_calc).length = weekly_calc.terms.toNat + 1 ∧
    (generate_payment_dates weekly_calc).head? = some weekly_calc.start_date ∧
    List.Chain' (fun a b => rataDie b = rataDie a + 7)
      (generate_payment_dates weekly_calc) :=
  c8_weekly_dates weekly_calc rfl (by decide)

/-! ### Claim theorems: day-count conventions -/

/-- C5: the Thirty360 year fraction equals rawDays/360 with
rawDays = (endYear−startYear)·360 + (endMonth−startMonth)·30 +
(min(end.day,30) − min(start.day,30)), for every pair of dates (hence in
particular for ordered pairs); concretely, Thirty360 between 2024-01-15
and 2024-02-15 is exactly 30/360, and ActualOver365 between the same
dates is exactly 31/365. -/
theorem c5_thirty360_formula :
    (∀ s e : Date,
      (year_fraction_30_360 s e).2 =
        ((e.year : ℤ) - s.year) * 360 + ((e.month : ℤ) - s.month) * 30 +
          (min (e.day : ℤ) 30 - min (s.day : ℤ) 30) ∧
      (year_fraction_30_360 s e).1 =
        (((year_fraction_30_360 s e).2 : ℤ) : ℚ) / 360) ∧
    (year_fraction_30_360 ⟨2024, 1, 15⟩ ⟨2024, 2, 15⟩).1 = 30 / 360 ∧
    (year_fraction_actual_365 ⟨2024, 1, 15⟩ ⟨2024, 2, 15⟩).1 = 31 / 365 := by
  refine ⟨fun s e => ⟨rfl, rfl⟩, ?_, ?_⟩
  · norm_num [year_fraction_30_360]
  · have h : days_between ⟨2024, 1, 15⟩ ⟨2024, 2, 15⟩ = 31 := by decide
    simp [year_fraction_actual_365, h]

/-- C10 counterexample: 2024-01-30 strictly precedes 2024-01-31 in date
order, yet the Thirty360 raw day count from start 2024-01-31 to end
2024-01-30 is 0, not negative (the start day clamps to 30), refuting
"rawDays and the fraction are simply negative" for that convention. -/
theorem c10_counterexample :
    DateLt ⟨2024, 1, 30⟩ ⟨2024, 1, 31⟩ ∧
    ¬ ((year_fraction_30_360 ⟨2024, 1, 31⟩ ⟨2024, 1, 30⟩).2 < 0) := by
  constructor
  · decide
  · decide

/-- C10 (amended): all four year-fraction functions are total (modelled as
plain functions on date pairs, with no failure path); when the end date
strictly precedes the start date, the three actual-day-count conventions
return strictly negative rawDays and fraction, while Thirty360 returns
nonpositive (possibly zero) values because days-of-month are clamped
to 30. -/
theorem c10_year_fraction_signs (s e : Date) (hs : ValidDate s)
    (he : ValidDate e) (hlt : DateLt e s) :
    (year_fraction_actual_360 s e).2 < 0 ∧
    (year_fraction_actual_360 s e).1 < 0 ∧
    (year_fraction_actual_365 s e).2 < 0 ∧
    (year_fraction_actual_365 s e).1 < 0 ∧
    (year_fraction_actual_actual s e).2 < 0 ∧
    (year_fraction_actual_actual s e).1 < 0 ∧
    (year_fraction_30_360 s e).2 ≤ 0 ∧
    (year_fraction_30_360 s e).1 ≤ 0 := by
  have hdays : days_between s e < 0 := by
    have h := rataDie_lt_of_dateLt he hs hlt
    unfold days_between
    omega
  have hcast : ((days_between s e : ℤ) : ℚ) < 0 := by exact_mod_cast hdays
  have h30 : (year_fraction_30_360 s e).2 ≤ 0 := by
    obtain ⟨hs1, hs2, hs3, hs4, hs5⟩ := hs
    obtain ⟨he1, he2, he3, he4, he5⟩ := he
    have hs31 := monthrange_le_31 s.year s.month
    have he31 := monthrange_le_31 e.year e.month
    simp only [year_fraction_30_360]
    rcases hlt with hy | ⟨hy, hm | ⟨hm, hd⟩⟩ <;> omega
  have h30q : (((year_fraction_30_360 s e).2 : ℤ) : ℚ) ≤ 0 := by exact_mod_cast h30
  refine ⟨hdays, div_neg_of_neg_of_pos hcast (by norm_num),
    hdays, div_neg_of_neg_of_pos hcast (by norm_num),
    hdays, ?_, h30, ?_⟩
  · simp only [year_fraction_actual_actual]
    split_ifs <;> exact div_neg_of_neg_of_pos hcast (by norm_num)
  · exact div_nonpos_iff.mpr (Or.inr ⟨h30q, by norm_num⟩)

/-- Witness for C10 at the concrete reversed pair 2024-03-15 / 2024-03-14. -/
theorem c10_witness :
    (year_fraction_actual_360 ⟨2024, 3, 15⟩ ⟨2024, 3, 14⟩).2 < 0 ∧
    (year_fraction_actual_360 ⟨2024, 3, 15⟩ ⟨2024, 3, 14⟩).1 < 0 ∧
    (year_fraction_actual_365 ⟨2024, 3, 15⟩ ⟨2024, 3, 14⟩).2 < 0 ∧
    (year_fraction_actual_365 ⟨2024, 3, 15⟩ ⟨2024, 3, 14⟩).1 < 0 ∧
    (year_fraction_actual_actual ⟨2024, 3, 15⟩ ⟨2024, 3, 14⟩).2 < 0 ∧
    (year_fraction_actual_actual ⟨2024, 3, 15⟩ ⟨2024, 3, 14⟩).1 < 0 ∧
    (year_fraction_30_360 ⟨2024, 3, 15⟩ ⟨2024, 3, 14⟩).2 ≤ 0 ∧
    (year_fraction_30_360 ⟨2024, 3, 15⟩ ⟨2024, 3, 14⟩).1 ≤ 0 :=
  c10_year_fraction_signs ⟨2024, 3, 15⟩ ⟨2024, 3, 14⟩ (by decide) (by decide)
    (by decide)

/-! ### Concrete schedule evaluations -/

theorem one_period_dates :
    generate_payment_dates one_period_calc = [⟨2024,1,15⟩, ⟨2025,1,15⟩] := by decide

theorem one_period_emiF : emi_F one_period_calc = 100 / 109 := by
  unfold emi_F
  rw [one_period_dates]
  norm_num [emi_loop, one_period_calc, year_fraction_30_360]

theorem one_period_emi : calculate_emi one_period_calc = 10900 := by
  rw [calculate_emi, one_period_emiF]
  rw [show one_period_calc.P = 10000 from rfl]
  rw [show (10000 : ℚ) / (100/109) = 10900 by norm_num]
  exact finance_round_of_cent ⟨1090000, by norm_num⟩

theorem finance_round_eq_of_cent {q r : ℚ} (h : q = r) (hc : Cent r) :
    finance_round q 2 = r := by
  rw [h]
  exact finance_round_of_cent hc

theorem one_period_schedule :
    get_schedule one_period_calc =
      [⟨1, ⟨2025,1,15⟩, 10000, 10000, 900, 10900, 0⟩] := by
  unfold get_schedule
  rw [one_period_dates]
  simp only [List.tail_cons, schedule_loop, one_period_emi]
  rw [if_pos (by norm_num [one_period_calc] : ((1:ℕ):ℤ) = one_period_calc.terms)]
  simp only [schedule_loop, List.cons.injEq, ScheduleRow.mk.injEq, and_true]
  have hyf : (one_period_calc.dcc ⟨2024,1,15⟩ ⟨2025,1,15⟩).1 = 1 := by
    show (year_fraction_30_360 ⟨2024,1,15⟩ ⟨2025,1,15⟩).1 = 1
    have h2 : (year_fraction_30_360 ⟨2024,1,15⟩ ⟨2025,1,15⟩).2 = 360 := by decide
    have h1 : (year_fraction_30_360 ⟨2024,1,15⟩ ⟨2025,1,15⟩).1
        = (((year_fraction_30_360 ⟨2024,1,15⟩ ⟨2025,1,15⟩).2 : ℤ) : ℚ) / 360 := rfl
    rw [h1, h2]
    norm_num
  have hstart : one_period_calc.start_date = ⟨2024,1,15⟩ := rfl
  rw [hstart, hyf]
  have hint : finance_round (one_period_calc.P * one_period_calc.R * 1) 2 = 900 :=
    finance_round_eq_of_cent (by norm_num [one_period_calc]) ⟨90000, by norm_num⟩
  rw [hint]
  refine ⟨trivial, trivial, ?_, ?_, ?_, ?_, ?_⟩
  · exact finance_round_eq_of_cent (by norm_num [one_period_calc]) ⟨1000000, by norm_num⟩
  · exact finance_round_eq_of_cent (by norm_num [one_period_calc]) ⟨1000000, by norm_num⟩
  · exact finance_round_eq_of_cent (by norm_num) ⟨90000, by norm_num⟩
  · exact finance_round_eq_of_cent (by norm_num [one_period_calc]) ⟨1090000, by norm_num⟩
  · exact finance_round_eq_of_cent (by norm_num) ⟨0, by norm_num⟩

theorem finance_round_eval_high {q : ℚ} {n : ℤ} (h0 : (n : ℚ) ≤ q * 10 ^ 2)
    (h1 : q * 10 ^ 2 < n + 1) (hgt : 1 / 2 < q * 10 ^ 2 - n) :
    finance_round q 2 = ((n + 1 : ℤ) : ℚ) / 10 ^ 2 := by
  rw [finance_round, round_half_even_eq_high h0 h1 hgt]

theorem finance_round_eval_tie_even {q : ℚ} {n : ℤ} (h0 : (n : ℚ) ≤ q * 10 ^ 2)
    (heq : q * 10 ^ 2 - n = 1 / 2) (he : Even n) :
    finance_round q 2 = (n : ℚ) / 10 ^ 2 := by
  rw [finance_round, round_half_even_eq_tie_even h0 heq he]

theorem finance_round_eval_tie_odd {q : ℚ} {n : ℤ} (h0 : (n : ℚ) ≤ q * 10 ^ 2)
    (heq : q * 10 ^ 2 - n = 1 / 2) (he : ¬ Even n) :
    finance_round q 2 = ((n + 1 : ℤ) : ℚ) / 10 ^ 2 := by
  rw [finance_round, round_half_even_eq_tie_odd h0 heq he]

theorem half_cent_dates :
    generate_payment_dates half_cent_calc =
      [⟨2024,1,15⟩, ⟨2025,1,15⟩, ⟨2026,1,15⟩] := by decide

theorem half_cent_emiF : emi_F half_cent_calc = 2 := by
  unfold emi_F
  rw [half_cent_dates]
  norm_num [emi_loop, half_cent_calc]

theorem half_cent_emi : calculate_emi half_cent_calc = 5001 / 100 := by
  rw [calculate_emi, half_cent_emiF]
  rw [show half_cent_calc.P = 100015/1000 from rfl]
  rw [finance_round_eval_high (n := 5000) (by norm_num) (by norm_num) (by norm_num)]
  norm_num

theorem half_cent_schedule :
    get_schedule half_cent_calc =
      [⟨1, ⟨2025,1,15⟩, 10002/100, 5001/100, 0, 5001/100, 50⟩,
       ⟨2, ⟨2026,1,15⟩, 50, 50, 0, 50, 0⟩] := by
  have hzero : ∀ b yf : ℚ, finance_round (b * half_cent_calc.R * yf) 2 = 0 :=
    fun b yf => finance_round_eq_of_cent
      (by rw [show half_cent_calc.R = 0 from rfl]; ring) ⟨0, by norm_num⟩
  unfold get_schedule
  rw [half_cent_dates]
  simp only [List.tail_cons, schedule_loop]
  simp only [half_cent_emi, hzero]
  rw [if_neg (by decide : ¬ ((1:ℕ):ℤ) = half_cent_calc.terms)]
  rw [if_pos (by decide : ((2:ℕ):ℤ) = half_cent_calc.terms)]
  rw [show half_cent_calc.P = 100015/1000 from rfl]
  simp only [List.cons.injEq, ScheduleRow.mk.injEq, and_true]
  refine ⟨⟨trivial, trivial, ?_, ?_, ?_, ?_, ?_⟩, trivial, trivial, ?_, ?_, ?_, ?_, ?_⟩
  · exact (finance_round_eval_tie_odd (n := 10001) (by norm_num) (by norm_num)
      (by decide)).trans (by norm_num)
  · exact finance_round_eq_of_cent (by norm_num) ⟨5001, by norm_num⟩
  · exact finance_round_eq_of_cent (by norm_num) ⟨0, by norm_num⟩
  · exact finance_round_eq_of_cent (by norm_num) ⟨5001, by norm_num⟩
  · exact (finance_round_eval_tie_even (n := 5000) (by norm_num) (by norm_num)
      (by decide)).trans (by norm_num)
  · exact (finance_round_eval_tie_even (n := 5000) (by norm_num) (by norm_num)
      (by decide)).trans (by norm_num)
  · exact (finance_round_eval_tie_even (n := 5000) (by norm_num) (by norm_num)
      (by decide)).trans (by norm_num)
  · exact finance_round_eq_of_cent (by norm_num) ⟨0, by norm_num⟩
  · exact (finance_round_eval_tie_even (n := 5000) (by norm_num) (by norm_num)
      (by decide)).trans (by norm_num)
  · exact finance_round_eq_of_cent (by norm_num) ⟨0, by norm_num⟩

/-! ### Schedule loop lemmas -/

theorem schedule_loop_length (c : EMI_Calculator) :
    ∀ (l : List Date) (b : ℚ) (p : Date) (i : ℕ),
      (schedule_loop c b p i l).length = l.length
  | [], _, _, _ => rfl
  | pay :: rest, b, p, i => by
    simp only [schedule_loop]
    split_ifs <;> simp only [List.length_cons, schedule_loop_length c rest]

theorem nonfinal_row_identity {b interest emiC : ℚ} (hb : Cent b)
    (hi : Cent interest) (he : Cent emiC) :
    finance_round (b - (emiC - interest) + (emiC - interest)) 2
      = finance_round (emiC - interest) 2 +
        finance_round (b - (emiC - interest)) 2 ∧
    finance_round emiC 2
      = finance_round (emiC - interest) 2 + finance_round interest 2 := by
  have hp : Cent (emiC - interest) := he.sub hi
  rw [show b - (emiC - interest) + (emiC - interest) = b from by ring,
    finance_round_of_cent hb, finance_round_of_cent hp,
    finance_round_of_cent (hb.sub hp), finance_round_of_cent he,
    finance_round_of_cent hi]
  constructor <;> ring

theorem final_row_identity {b interest emiC : ℚ} (hb : Cent b)
    (hi : Cent interest) :
    finance_round (0 + (emiC - interest + (b - (emiC - interest)))) 2
      = finance_round (emiC - interest + (b - (emiC - interest))) 2 +
        finance_round (0 : ℚ) 2 ∧
    finance_round (emiC - interest + (b - (emiC - interest)) + interest) 2
      = finance_round (emiC - interest + (b - (emiC - interest))) 2 +
        finance_round interest 2 := by
  rw [show emiC - interest + (b - (emiC - interest)) = b from by ring, zero_add,
    finance_round_of_cent hb, finance_round_of_cent Cent.zero,
    finance_round_of_cent hi, finance_round_of_cent (hb.add hi)]
  constructor <;> ring

theorem schedule_loop_row_identities (c : EMI_Calculator) :
    ∀ (l : List Date) (b : ℚ) (p : Date) (i : ℕ), Cent b →
      ∀ row ∈ schedule_loop c b p i l,
        row.opening_balance = row.principal + row.closing_balance ∧
        row.emi = row.principal + row.interest
  | [], _, _, _, _ => by simp [schedule_loop]
  | pay :: rest, b, p, i, hb => by
    intro row hrow
    have hemi : Cent (calculate_emi c) := finance_round_cent _
    have hint : Cent (finance_round (b * c.R * (c.dcc p pay).1) 2) :=
      finance_round_cent _
    simp only [schedule_loop] at hrow
    by_cases hterm : (i : ℤ) = c.terms
    · rw [if_pos hterm] at hrow
      rcases List.mem_cons.mp hrow with hrw | h
      · subst hrw
        exact ⟨(final_row_identity hb hint).1, (final_row_identity hb hint).2⟩
      · exact schedule_loop_row_identities c rest 0 pay (i + 1) Cent.zero row h
    · rw [if_neg hterm] at hrow
      rcases List.mem_cons.mp hrow with hrw | h
      · subst hrw
        exact ⟨(nonfinal_row_identity hb hint hemi).1,
          (nonfinal_row_identity hb hint hemi).2⟩
      · exact schedule_loop_row_identities c rest
          (b - (calculate_emi c - finance_round (b * c.R * (c.dcc p pay).1) 2))
          pay (i + 1) (hb.sub (hemi.sub hint)) row h

theorem getLast?_cons_of_ne_nil {α : Type _} (a : α) {l : List α} (h : l ≠ []) :
    (a :: l).getLast? = l.getLast? := by
  cases l with
  | nil => exact absurd rfl h
  | cons x xs => exact List.getLast?_cons_cons

theorem schedule_loop_last_closing (c : EMI_Calculator) :
    ∀ (l : List Date) (b : ℚ) (p : Date) (i : ℕ),
      l ≠ [] → (i : ℤ) + l.length = c.terms + 1 →
      ((schedule_loop c b p i l).getLast?).map ScheduleRow.closing_balance
        = some 0
  | [], _, _, _, h, _ => absurd rfl h
  | [pay], b, p, i, _, hinv => by
    have hterm : (i : ℤ) = c.terms := by
      simp only [List.length_cons, List.length_nil] at hinv
      omega
    simp only [schedule_loop]
    rw [if_pos hterm]
    simp [schedule_loop, finance_round_of_cent Cent.zero]
  | pay :: pay' :: rest, b, p, i, _, hinv => by
    have hterm : ¬ (i : ℤ) = c.terms := by
      simp only [List.length_cons] at hinv
      omega
    have hinv' : ((i : ℕ) + 1 : ℤ) + (pay' :: rest).length = c.terms + 1 := by
      simp only [List.length_cons] at hinv ⊢
      push_cast at hinv ⊢
      omega
    generalize hL : pay' :: rest = L
    simp only [schedule_loop]
    rw [if_neg hterm]
    have hne : schedule_loop c
        (b - (calculate_emi c - finance_round (b * c.R * (c.dcc p pay).1) 2))
        pay (i + 1) L ≠ [] := by
      intro hcontra
      have hl := schedule_loop_length c L
        (b - (calculate_emi c - finance_round (b * c.R * (c.dcc p pay).1) 2))
        pay (i + 1)
      rw [hcontra, ← hL] at hl
      simp at hl
    rw [getLast?_cons_of_ne_nil _ hne, ← hL]
    exact schedule_loop_last_closing c (pay' :: rest) _ pay (i + 1)
      (by simp) (by push_cast; omega)

theorem schedule_loop_principal_sum (c : EMI_Calculator) :
    ∀ (l : List Date) (b : ℚ) (p : Date) (i : ℕ),
      l ≠ [] → (i : ℤ) + l.length = c.terms + 1 →
      ∃ s : ℚ, Cent s ∧
        schedule_principal_sum (schedule_loop c b p i l)
          = s + finance_round (b - s) 2
  | [], _, _, _, h, _ => absurd rfl h
  | [pay], b, p, i, _, hinv => by
    have hterm : (i : ℤ) = c.terms := by
      simp only [List.length_cons, List.length_nil] at hinv
      omega
    refine ⟨0, Cent.zero, ?_⟩
    simp only [schedule_loop]
    rw [if_pos hterm]
    simp only [schedule_loop, schedule_principal_sum, List.map_cons,
      List.map_nil, List.sum_cons, List.sum_nil]
    rw [show calculate_emi c - finance_round (b * c.R * (c.dcc p pay).1) 2 +
        (b - (calculate_emi c - finance_round (b * c.R * (c.dcc p pay).1) 2))
        = b from by ring, sub_zero, zero_add, add_zero]
  | pay :: pay' :: rest, b, p, i, _, hinv => by
    have hterm : ¬ (i : ℤ) = c.terms := by
      simp only [List.length_cons] at hinv
      omega
    obtain ⟨s', hs', hsum⟩ := schedule_loop_principal_sum c (pay' :: rest)
      (b - (calculate_emi c - finance_round (b * c.R * (c.dcc p pay).1) 2))
      pay (i + 1) (by simp)
      (by simp only [List.length_cons] at hinv ⊢; push_cast at hinv ⊢; omega)
    have hemi : Cent (calculate_emi c) := finance_round_cent _
    have hint : Cent (finance_round (b * c.R * (c.dcc p pay).1) 2) :=
      finance_round_cent _
    have hpr : Cent (calculate_emi c - finance_round (b * c.R * (c.dcc p pay).1) 2) :=
      hemi.sub hint
    refine ⟨calculate_emi c - finance_round (b * c.R * (c.dcc p pay).1) 2 + s',
      hpr.add hs', ?_⟩
    generalize hL : pay' :: rest = L
    simp only [schedule_loop]
    rw [if_neg hterm, ← hL]
    simp only [schedule_principal_sum, List.map_cons, List.sum_cons] at hsum ⊢
    rw [finance_round_of_cent hpr]
    rw [show b - (calculate_emi c - finance_round (b * c.R * (c.dcc p pay).1) 2) - s'
        = b - (calculate_emi c - finance_round (b * c.R * (c.dcc p pay).1) 2 + s')
        from by ring] at hsum
    rw [hsum]
    ring

/-! ### Claim theorems: amortization schedule -/

/-- C1: for every calculator whose term count is at least 1 (every valid
LoanTerms has totalPeriods ≥ 1), the final row of the generated schedule
has closing balance exactly 0: the terminal correction re-adds the
remaining balance into the final period's principal and forces the carried
balance to zero. -/
theorem c1_last_closing_balance_zero (c : EMI_Calculator)
    (hterms : 1 ≤ c.terms) :
    ((get_schedule c).getLast?).map ScheduleRow.closing_balance = some 0 := by
  unfold get_schedule
  apply schedule_loop_last_closing
  · simp only [generate_payment_dates, List.tail_cons]
    intro hcontra
    have hl := gen_dates_aux_length c c.terms.toNat c.start_date
    rw [hcontra] at hl
    simp at hl
    omega
  · simp only [generate_payment_dates, List.tail_cons, gen_dates_aux_length]
    omega

/-- Witness for C1 at the concrete 1-period calculator. -/
theorem c1_witness :
    ((get_schedule one_period_calc).getLast?).map ScheduleRow.closing_balance
      = some 0 :=
  c1_last_closing_balance_zero one_period_calc (by decide)

/-- C2 counterexample: for the valid 1-period loan `one_period_calc`
(principal 10000, rate 9%, 30/360, annual, 1 year) the single schedule row
is emitted with opening 10000.00, principal 10000.00, interest 900.00 and
closing 0.00, and 10000 ≠ 10000 + 900 + 0: the claimed per-row identity
opening = principal + interest + closing fails. -/
theorem c2_counterexample :
    (get_schedule one_period_calc).head? =
      some ⟨1, ⟨2025, 1, 15⟩, 10000, 10000, 900, 10900, 0⟩ ∧
    ¬ ((10000 : ℚ) = 10000 + 900 + 0) := by
  constructor
  · rw [one_period_schedule]
    rfl
  · norm_num

/-- C2 (amended): for every calculator whose principal is a whole number
of cents, every emitted schedule row satisfies
opening = principal + closing and installment = principal + interest
(the interest belongs in the installment identity, not the balance
identity). -/
theorem c2_row_identity_amended (c : EMI_Calculator) (row : ScheduleRow)
    (hP : Cent c.P) (hrow : row ∈ get_schedule c) :
    row.opening_balance = row.principal + row.closing_balance ∧
    row.emi = row.principal + row.interest :=
  schedule_loop_row_identities c _ c.P c.start_date 1 hP row hrow

/-- Witness for C2 at the single row of the 1-period calculator. -/
theorem c2_witness : (10000 : ℚ) = 10000 + 0 ∧ (10900 : ℚ) = 10000 + 900 :=
  c2_row_identity_amended one_period_calc
    ⟨1, ⟨2025, 1, 15⟩, 10000, 10000, 900, 10900, 0⟩
    ⟨1000000, by rw [show one_period_calc.P = 10000 from rfl]; norm_num⟩
    (by rw [one_period_schedule]; exact List.mem_singleton.mpr rfl)

/-- C9 counterexample: `half_cent_calc` has the valid exact-decimal
principal 100.015; its first schedule row is emitted with opening 100.02,
principal 50.01 and closing 50.00, and 100.02 − 50.01 = 50.01 ≠ 50.00:
with a half-cent balance residue, banker's rounding breaks the claimed
Opening − Principal = Closing identity by one cent. -/
theorem c9_counterexample :
    (get_schedule half_cent_calc).head? =
      some ⟨1, ⟨2025, 1, 15⟩, 10002 / 100, 5001 / 100, 0, 5001 / 100, 50⟩ ∧
    ¬ ((10002 / 100 : ℚ) - 5001 / 100 = 50) := by
  constructor
  · rw [half_cent_schedule]
    rfl
  · norm_num

/-- C9 (amended): for every calculator whose principal is a whole number
of cents, every emitted schedule row satisfies
Opening Balance − Principal = Closing Balance exactly. -/
theorem c9_opening_minus_principal (c : EMI_Calculator) (row : ScheduleRow)
    (hP : Cent c.P) (hrow : row ∈ get_schedule c) :
    row.opening_balance - row.principal = row.closing_balance := by
  have h := schedule_loop_row_identities c _ c.P c.start_date 1 hP row hrow
  rw [h.1]
  ring

/-- Witness for C9 at the single row of the 1-period calculator. -/
theorem c9_witness : (10000 : ℚ) - 10000 = 0 :=
  c9_opening_minus_principal one_period_calc
    ⟨1, ⟨2025, 1, 15⟩, 10000, 10000, 900, 10900, 0⟩
    ⟨1000000, by rw [show one_period_calc.P = 10000 from rfl]; norm_num⟩
    (by rw [one_period_schedule]; exact List.mem_singleton.mpr rfl)

/-- C6 counterexample: for `half_cent_calc` (valid LoanTerms whose exact
decimal principal is 100.015) the schedule's principal column sums to
100.01, which is not the original principal: the sum is exact only for
principals that are whole numbers of cents. -/
theorem c6_counterexample :
    schedule_principal_sum (get_schedule half_cent_calc) = 10001 / 100 ∧
    ¬ (schedule_principal_sum (get_schedule half_cent_calc)
        = half_cent_calc.P) := by
  have h : schedule_principal_sum (get_schedule half_cent_calc) = 10001 / 100 := by
    rw [half_cent_schedule]
    simp [schedule_principal_sum]
    norm_num
  refine ⟨h, ?_⟩
  rw [h, show half_cent_calc.P = 100015 / 1000 from rfl]
  norm_num

/-- C6 (amended): for every calculator with at least one period, the sum
of the schedule's principal components lies within one cent times the
number of periods of the original principal (in fact within half a cent),
and equals the principal exactly whenever the principal is a whole number
of cents — the terminal correction absorbs all rounding drift. -/
theorem c6_principal_sum (c : EMI_Calculator) (hterms : 1 ≤ c.terms) :
    |schedule_principal_sum (get_schedule c) - c.P|
      ≤ (c.terms : ℚ) * (1 / 100) ∧
    (Cent c.P → schedule_principal_sum (get_schedule c) = c.P) := by
  obtain ⟨s, hs, hsum⟩ := schedule_loop_principal_sum c
    (generate_payment_dates c).tail c.P c.start_date 1
    (by
      simp only [generate_payment_dates, List.tail_cons]
      intro hcontra
      have hl := gen_dates_aux_length c c.terms.toNat c.start_date
      rw [hcontra] at hl
      simp at hl
      omega)
    (by
      simp only [generate_payment_dates, List.tail_cons, gen_dates_aux_length]
      omega)
  have hg : schedule_principal_sum (get_schedule c)
      = s + finance_round (c.P - s) 2 := hsum
  constructor
  · rw [hg, show s + finance_round (c.P - s) 2 - c.P
      = finance_round (c.P - s) 2 - (c.P - s) from by ring]
    refine le_trans (abs_finance_round_sub (c.P - s)) ?_
    have h1 : (1 : ℚ) ≤ (c.terms : ℚ) := by exact_mod_cast hterms
    linarith
  · intro hP
    rw [hg, finance_round_of_cent (hP.sub hs)]
    ring

/-- Witness for C6 at the concrete 1-period calculator. -/
theorem c6_witness :
    |schedule_principal_sum (get_schedule one_period_calc) - one_period_calc.P|
      ≤ (one_period_calc.terms : ℚ) * (1 / 100) ∧
    (Cent one_period_calc.P →
      schedule_principal_sum (get_schedule one_period_calc)
        = one_period_calc.P) :=
  c6_principal_sum one_period_calc (by decide)

/-! ### Solver closed form -/

theorem emi_loop_fst (c : EMI_Calculator) :
    ∀ (l : List Date) (prev : Date) (F p : ℚ),
      (emi_loop c prev F p l).1
        = F + ((List.range l.length).map
            (fun k => (p * ((((prev :: l).zip l).map
              (fun q => 1 + c.R * (c.dcc q.1 q.2).1)).take (k + 1)).prod)⁻¹)).sum
  | [], prev, F, p => by simp [emi_loop]
  | pay :: rest, prev, F, p => by
    simp only [emi_loop]
    rw [emi_loop_fst c rest pay]
    simp only [List.zip_cons_cons, List.map_cons, List.length_cons]
    rw [List.range_succ_eq_map]
    simp only [List.map_cons, List.map_map, List.sum_cons]
    rw [show ∀ fs : List ℚ, ((fun k => (p * (((1 + c.R * (c.dcc prev pay).1) :: fs).take (k + 1)).prod)⁻¹) ∘ Nat.succ)
        = fun k => ((p * (1 + c.R * (c.dcc prev pay).1)) * ((fs.take (k + 1)).prod))⁻¹ from ?_]
    · simp only [List.take_succ_cons, List.take_zero, List.prod_cons,
        List.prod_nil, mul_one, one_div]
      ring
    · intro fs
      funext k
      simp only [Function.comp_apply, List.take_succ_cons, List.prod_cons]
      rw [mul_assoc]

theorem emi_F_eq_F_spec (c : EMI_Calculator) : emi_F c = F_spec c := by
  unfold emi_F F_spec discount_factors
  rw [emi_loop_fst]
  simp only [generate_payment_dates, List.tail_cons, zero_add, one_mul,
    List.length_map, List.length_zip, List.length_cons, gen_dates_aux_length]
  congr 2
  rw [min_eq_right (Nat.le_succ _)]

/-! ### Claim theorems: installment solver -/

/-- C3: the installment solver returns round(principal / F, 2) under
round-half-to-even (`finance_round`), where F is the closed-form sum over
all periods of the reciprocals of the running products of the per-period
discount factors 1 + R·yearFraction over consecutive date pairs in order
(`F_spec`); the loop's product/sum accumulators (initialized to 1 and 0)
compute exactly this quantity, in exact arithmetic. -/
theorem c3_calculate_emi_closed_form (c : EMI_Calculator) :
    calculate_emi c = finance_round (c.P / F_spec c) 2 := by
  rw [calculate_emi, emi_F_eq_F_spec]

/-! ### Claim theorems: input validation -/

/-- C7 counterexample: constructing a calculator with the non-positive
principal −100 (and otherwise valid inputs) does not fail: the constructor
succeeds and a complete 1-row schedule is produced — there is no
InvalidInput check for non-positive principal. -/
theorem c7_counterexample :
    (mk_EMI_Calculator (-100) 9 ⟨2024, 1, 15⟩ 1 "30/360" "A").map
      (fun c => (get_schedule c).length) = Except.ok 1 := by
  have hF : emi_F negative_principal_calc = 100 / 109 := by
    unfold emi_F
    rw [show generate_payment_dates negative_principal_calc
        = [⟨2024, 1, 15⟩, ⟨2025, 1, 15⟩] from by decide]
    norm_num [emi_loop, negative_principal_calc, year_fraction_30_360]
  have hmk : mk_EMI_Calculator (-100) 9 ⟨2024, 1, 15⟩ 1 "30/360" "A"
      = Except.ok negative_principal_calc := by
    show (if emi_F negative_principal_calc = 0 then
        Except.error "decimal.DivisionByZero"
      else Except.ok negative_principal_calc)
      = Except.ok negative_principal_calc
    rw [if_neg (by rw [hF]; norm_num)]
  have hlen : (get_schedule negative_principal_calc).length = 1 := by
    unfold get_schedule
    rw [schedule_loop_length]
    rw [show generate_payment_dates negative_principal_calc
        = [⟨2024, 1, 15⟩, ⟨2025, 1, 15⟩] from by decide]
    rfl
  rw [hmk]
  simp [Except.map, hlen]

/-- C7 (amended): inputs with a non-positive term always fail in the
constructor — an unknown frequency or convention code raises a lookup
error, and otherwise the date loop runs zero times, F stays 0, and
computing the installment raises a division-by-zero — so no calculator and
no schedule rows are ever returned. Non-positive principal, by contrast,
is not validated at all (see the counterexample). -/
theorem c7_nonpositive_term_fails (principal annual_rate : ℚ)
    (start_date : Date) (years : ℤ) (convention frequency : String)
    (hy : years ≤ 0) :
    (mk_EMI_Calculator principal annual_rate start_date years convention
      frequency).isOk = false := by
  unfold mk_EMI_Calculator
  cases hppy : periods_per_year_table frequency with
  | none => rfl
  | some ppy =>
    cases hdcc : dcc_table convention with
    | none => rfl
    | some dcc =>
      have hterms : (years * (ppy : ℤ)).toNat = 0 := by
        have h1 : years * (ppy : ℤ) ≤ 0 :=
          mul_nonpos_iff.mpr (Or.inr ⟨hy, Int.natCast_nonneg ppy⟩)
        omega
      have hF : emi_F ⟨principal, annual_rate / 100, start_date, years,
          convention, frequency, ppy, years * (ppy : ℤ), dcc⟩ = 0 := by
        unfold emi_F generate_payment_dates
        dsimp only
        rw [hterms]
        rfl
      dsimp only
      rw [if_pos hF]
      rfl

/-- Witness for C7 at a zero-year term with valid codes. -/
theorem c7_witness :
    (mk_EMI_Calculator 10000 9 ⟨2024, 1, 15⟩ 0 "30/360" "A").isOk = false :=
  c7_nonpositive_term_fails 10000 9 ⟨2024, 1, 15⟩ 0 "30/360" "A" (le_refl 0)
